import Mathlib

/-!
# Verification of the TiledArray core against its specification

Shallow embedding of the relevant parts of the TiledArray sources:

* `src/TiledArray/math/vector_op.h` — loop-unwound vector kernels
  (`VectorOpUnwind`, `binary_vector_op`, `reduce_vector_op`).
* `src/TiledArray/permute_tiled_tensor.h` — permute expression node
  (`init_shape_helper`, `is_zero`).
* `src/TiledArray/tile.h` — tile-level algebra wrappers (`subt`).
* `examples/ccd/input_data.cpp` — `make_trange1`.
* `tests/conversions.cpp` — policy / tile-type conversion round trips.

Buffers (C pointers) are modelled as total functions `Nat → α`; a pointer
offset `p + i` becomes either an explicit base-index argument or a shifted
closure `fun j => p (i + j)`.  A store `p[i] = v` becomes `Function.update`.
The contents of an uninitialized stack array are modelled by an explicit
`junk` value; theorems quantify over it, showing every slot is written
before being read.
-/

namespace TiledArray
namespace math

/-- `TILEDARRAY_LOOP_UNWIND`, the fixed unwinding width (default 8). -/
def LOOP_UNWIND : Nat := 8

namespace VectorOpUnwind

/-- The array offset used by the unwinding step `VectorOpUnwind<k>`:
`TILEDARRAY_LOOP_UNWIND - k - 1` (the base case `k = 0` uses the same
formula, `LOOP_UNWIND - 1`). -/
def offset (k : Nat) : Nat := LOOP_UNWIND - k - 1

/-- `VectorOpUnwind<k>::copy(arg, result)` with the result pointer at base
index `db`; the source pointer shift is pre-applied to `arg`.
Each step does `result[offset] = arg[offset]` and recurses. -/
def copy {α : Type} : Nat → (Nat → α) → (Nat → α) → Nat → (Nat → α)
  | 0, arg, result, db => Function.update result (db + offset 0) (arg (offset 0))
  | k + 1, arg, result, db =>
      copy k arg (Function.update result (db + offset (k + 1)) (arg (offset (k + 1)))) db

/-- `VectorOpUnwind<k>::scatter(arg, result, stride)`: each step does
`*result = arg[offset]` and recurses with `result + stride`; `rb` is the
current base index of the result pointer. -/
def scatter {α : Type} : Nat → (Nat → α) → (Nat → α) → Nat → Nat → (Nat → α)
  | 0, arg, result, rb, _stride => Function.update result rb (arg (offset 0))
  | k + 1, arg, result, rb, stride =>
      scatter k arg (Function.update result rb (arg (offset (k + 1)))) (rb + stride) stride

/-- `VectorOpUnwind<k>::gather(arg, result, stride)`: the recursive steps do
`result[offset] = *arg` and recurse with `arg + stride` (base index `ab`),
while the terminating step `VectorOpUnwind<0>` executes `*result = arg[offset]`
with the result pointer still at its original position. -/
def gather {α : Type} : Nat → (Nat → α) → Nat → (Nat → α) → Nat → (Nat → α)
  | 0, arg, ab, result, _stride => Function.update result 0 (arg (ab + offset 0))
  | k + 1, arg, ab, result, stride =>
      gather k arg (ab + stride) (Function.update result (offset (k + 1)) (arg ab)) stride

/-- `VectorOpUnwind<k>::binary(left, right, result, op)`: each step does
`result[offset] = op(left[offset], right[offset])`. -/
def binary {α β γ : Type} : Nat → (Nat → α) → (Nat → β) → (Nat → γ) → (α → β → γ) → (Nat → γ)
  | 0, l, r, result, op =>
      Function.update result (offset 0) (op (l (offset 0)) (r (offset 0)))
  | k + 1, l, r, result, op =>
      binary k l r
        (Function.update result (offset (k + 1)) (op (l (offset (k + 1))) (r (offset (k + 1))))) op

/-- The in-place overload `VectorOpUnwind<k>::binary(arg, result, op)`: each
step does `op(result[offset], arg[offset])`, a mutation of `result[offset]`
modelled as `result[offset] := op (result[offset]) (arg[offset])`. -/
def binary_inplace {α γ : Type} : Nat → (Nat → α) → (Nat → γ) → (γ → α → γ) → (Nat → γ)
  | 0, arg, result, op =>
      Function.update result (offset 0) (op (result (offset 0)) (arg (offset 0)))
  | k + 1, arg, result, op =>
      binary_inplace k arg
        (Function.update result (offset (k + 1))
          (op (result (offset (k + 1))) (arg (offset (k + 1))))) op

/-- `VectorOpUnwind<k>::reduce(arg, result, op)`.  Modelled from the spec:
the combining operator is threaded through the recursion exactly as in the
sibling `binary`/`unary` members.  In the source the recursive call reads
`VectorOpUnwindN1::reduce(arg, result);`, omitting `op`, which matches no
overload of `reduce` and therefore does not typecheck when instantiated. -/
def reduce {α β : Type} : Nat → (Nat → α) → β → (β → α → β) → β
  | 0, arg, result, op => op result (arg (offset 0))
  | k + 1, arg, result, op => reduce k arg (op result (arg (offset (k + 1)))) op

/-- The two-argument `VectorOpUnwind<k>::reduce(left, right, result, op)`,
modelled from the spec in the same way (the source again drops `op` in the
recursive call). -/
def reduce2 {α β γ : Type} : Nat → (Nat → α) → (Nat → β) → γ → (γ → α → β → γ) → γ
  | 0, l, r, result, op => op result (l (offset 0)) (r (offset 0))
  | k + 1, l, r, result, op =>
      reduce2 k l r (op result (l (offset (k + 1))) (r (offset (k + 1)))) op

end VectorOpUnwind

/-- The in-place overload
`binary_vector_op(n, arg, result, op)` (vector_op.h lines 336–372): the
unwound block path handles indices below `nx = n & ~(LOOP_UNWIND-1)`
(equivalently `n / LOOP_UNWIND * LOOP_UNWIND`) in blocks of `LOOP_UNWIND`
(copy the result block and the argument block to temporaries, apply the
in-place unwound `binary`, copy the result block back); the scalar loop
handles the remainder.  `junka`, `junkres` model the indeterminate initial
contents of the temporary stack blocks. -/
def binary_vector_op_inplace {α γ : Type} (n : Nat) (arg : Nat → α) (result : Nat → γ)
    (op : γ → α → γ) (junka : α) (junkres : γ) : Nat → γ :=
  let nx := n / LOOP_UNWIND * LOOP_UNWIND
  let blocked := (List.range (n / LOOP_UNWIND)).foldl (fun res b =>
      let i := b * LOOP_UNWIND
      let result_block := VectorOpUnwind.copy (LOOP_UNWIND - 1) (fun j => res (i + j))
        (fun _ => junkres) 0
      let arg_block := VectorOpUnwind.copy (LOOP_UNWIND - 1) (fun j => arg (i + j))
        (fun _ => junka) 0
      let result_block2 := VectorOpUnwind.binary_inplace (LOOP_UNWIND - 1) arg_block
        result_block op
      VectorOpUnwind.copy (LOOP_UNWIND - 1) result_block2 res i)
    result
  (List.range' nx (n - nx)).foldl
    (fun res i => Function.update res i (op (res i) (arg i))) blocked

/-- `binary_vector_op(n, left, right, result, op)` (vector_op.h lines
374–410): block path below `nx`, scalar remainder loop above it. -/
def binary_vector_op {α β γ : Type} (n : Nat) (left : Nat → α) (right : Nat → β)
    (result : Nat → γ) (op : α → β → γ) (junkl : α) (junkr : β) (junkres : γ) : Nat → γ :=
  let nx := n / LOOP_UNWIND * LOOP_UNWIND
  let blocked := (List.range (n / LOOP_UNWIND)).foldl (fun res b =>
      let i := b * LOOP_UNWIND
      let left_block := VectorOpUnwind.copy (LOOP_UNWIND - 1) (fun j => left (i + j))
        (fun _ => junkl) 0
      let right_block := VectorOpUnwind.copy (LOOP_UNWIND - 1) (fun j => right (i + j))
        (fun _ => junkr) 0
      let result_block := VectorOpUnwind.binary (LOOP_UNWIND - 1) left_block right_block
        (fun _ => junkres) op
      VectorOpUnwind.copy (LOOP_UNWIND - 1) result_block res i)
    result
  (List.range' nx (n - nx)).foldl
    (fun res i => Function.update res i (op (left i) (right i))) blocked

/-- `reduce_vector_op(n, arg, result, op)` (vector_op.h lines 516–545),
built on the spec-modelled `VectorOpUnwind.reduce` (see there: the source
drops `op` in the unwinding recursion and does not compile). -/
def reduce_vector_op {α β : Type} (n : Nat) (arg : Nat → α) (result : β)
    (op : β → α → β) (junk : α) : β :=
  let nx := n / LOOP_UNWIND * LOOP_UNWIND
  let blocked := (List.range (n / LOOP_UNWIND)).foldl (fun res b =>
      let i := b * LOOP_UNWIND
      let arg_block := VectorOpUnwind.copy (LOOP_UNWIND - 1) (fun j => arg (i + j))
        (fun _ => junk) 0
      VectorOpUnwind.reduce (LOOP_UNWIND - 1) arg_block res op)
    result
  (List.range' nx (n - nx)).foldl (fun res i => op res (arg i)) blocked

/-- The two-argument `reduce_vector_op(n, left, right, result, op)`
(vector_op.h lines 482–514), built on the spec-modelled
`VectorOpUnwind.reduce2`. -/
def reduce_vector_op2 {α β γ : Type} (n : Nat) (left : Nat → α) (right : Nat → β)
    (result : γ) (op : γ → α → β → γ) (junkl : α) (junkr : β) : γ :=
  let nx := n / LOOP_UNWIND * LOOP_UNWIND
  let blocked := (List.range (n / LOOP_UNWIND)).foldl (fun res b =>
      let i := b * LOOP_UNWIND
      let left_block := VectorOpUnwind.copy (LOOP_UNWIND - 1) (fun j => left (i + j))
        (fun _ => junkl) 0
      let right_block := VectorOpUnwind.copy (LOOP_UNWIND - 1) (fun j => right (i + j))
        (fun _ => junkr) 0
      VectorOpUnwind.reduce2 (LOOP_UNWIND - 1) left_block right_block res op)
    result
  (List.range' nx (n - nx)).foldl (fun res i => op res (left i) (right i)) blocked

end math

namespace expressions

/-!
## PermuteTiledTensor (`src/TiledArray/permute_tiled_tensor.h`)

The source-tensor argument of a `PermuteTiledTensor` node is modelled by its
tile-grid extents (one tile count per dimension, in the decreasing
(row-major) dimension order used by the node) and its shape bitset.  The
`Bitset<>` is modelled as `Nat → Bool` together with the convention that a
bit beyond the tile volume is never set; reads clamp to the volume, exactly
as the padding bits of the last storage block are always zero.

`CoordinateSystem` is not part of `src/`.  Modelled from the spec (§4.2):
`calc_weight` produces the row-major stride vector, `calc_ordinal` is the
dot product of a coordinate with a weight vector, and
`increment_coordinate` advances a coordinate to its successor in ordinal
order, wrapping to the start after the last coordinate.  `Permutation`
(§4.2) maps position `i` to position `p i`, so applying `p` to an array `a`
yields the array `b` with `b (p i) = a i`.
-/

/-- Row-major (decreasing dimension order) weights: the stride of a
dimension is the product of the extents of all later dimensions.
Modelled from the spec: `CS::calc_weight`. -/
def calc_weight : List Nat → List Nat
  | [] => []
  | _ :: rest => rest.prod :: calc_weight rest

/-- `CS::calc_ordinal(index, weight)`: the dot product of a coordinate with
a weight vector.  Modelled from the spec. -/
def calc_ordinal (coord weight : List Nat) : Nat :=
  (List.zipWith (· * ·) coord weight).sum

/-- The row-major coordinate of a flat ordinal (the mathematical inverse of
`calc_ordinal` with row-major weights).  Modelled from the spec. -/
def ord_to_coord : List Nat → Nat → List Nat
  | [], _ => []
  | _ :: rest, o => o / rest.prod :: ord_to_coord rest (o % rest.prod)

/-- One odometer step on the reversed coordinate / extents lists (the last
dimension is fastest in row-major order). -/
def inc_coord_rev : List Nat → List Nat → List Nat
  | c :: cs, s :: ss => if c + 1 < s then (c + 1) :: cs else 0 :: inc_coord_rev cs ss
  | cs, _ => cs

/-- `CS::increment_coordinate(index, start, size)` with `start = 0`:
advance `c` to the next coordinate in ordinal order, wrapping to the origin
after the last one.  Modelled from the spec. -/
def increment_coordinate (c sizes : List Nat) : List Nat :=
  (inc_coord_rev c.reverse sizes.reverse).reverse

/-- `TiledArray::detail::permute_array(p.begin(), p.end(), a.begin(), r.begin())`:
the permuted copy `r` of `a` with `r[p[i]] = a[i]`.  Modelled from the spec
(§4.2).  `p.indexOf j` recovers the `i` with `p i = j`. -/
def permute_array (p a : List Nat) : List Nat :=
  (List.range a.length).map fun j => a.getD (p.indexOf j) 0

/-- The inverse permutation `-p` (as a value list): position `j` holds the
`i` with `p i = j`.  Modelled from the spec (§4.2). -/
def inv_perm (p : List Nat) : List Nat :=
  (List.range p.length).map fun j => p.indexOf j

/-- The number of bits in one `Bitset<>` storage block:
`8 * sizeof(Bitset<>::block_type)` for the default 64-bit block type.
Modelled from the spec (§9: bit-set shape storage iterated in fixed-size
blocks). -/
def bitset_block_bits : Nat := 64

/-- The argument tensor of a `PermuteTiledTensor`, reduced to what
`init_shape` consumes: its tile-grid extents and its shape bitset. -/
structure ArgTensor where
  sizes : List Nat
  shape : Nat → Bool

/-- A clamped bitset read: padding bits beyond the tile volume are zero. -/
def ArgTensor.bit (arg : ArgTensor) (o : Nat) : Bool :=
  arg.shape o && decide (o < arg.sizes.prod)

/-- The inner per-bit loop of `init_shape_helper::operator()(b)`:
`for(first = b*count; first < last; ++first, increment_coordinate(index))`
with `index` initialized to `0` — the coordinate origin — regardless of the
block number `b`.  `iters` counts the remaining iterations. -/
def init_shape_inner (arg : ArgTensor) (invp_weight : List Nat) (b : Nat) :
    Nat → List Nat → (Nat → Bool) → (Nat → Bool)
  | 0, _, shape => shape
  | iters + 1, index, shape =>
      let first := b * bitset_block_bits + (bitset_block_bits - (iters + 1))
      let shape2 := if arg.bit first
        then Function.update shape (calc_ordinal index invp_weight) true
        else shape
      init_shape_inner arg invp_weight b iters (increment_coordinate index arg.sizes) shape2

/-- `init_shape_helper::operator()(b)`: skip the block when its storage
word is all zero, otherwise run the per-bit loop with the coordinate
starting at the origin. -/
def init_shape_helper (arg : ArgTensor) (invp_weight : List Nat)
    (shape : Nat → Bool) (b : Nat) : Nat → Bool :=
  if (List.range bitset_block_bits).any (fun j => arg.bit (b * bitset_block_bits + j)) then
    init_shape_inner arg invp_weight b bitset_block_bits
      (List.replicate arg.sizes.length 0) shape
  else shape

/-- The number of storage blocks of a bitset with `volume` bits. -/
def num_blocks (volume : Nat) : Nat :=
  (volume + bitset_block_bits - 1) / bitset_block_bits

/-- `PermuteTiledTensor::init_shape`: `invp_weight = -perm ^ calc_weight(size())`
where `size()` is the permuted size array, then `init_shape_helper` over
every storage block of the destination bitset (initially all zero). -/
def init_shape (arg : ArgTensor) (p : List Nat) : Nat → Bool :=
  let invp_weight := permute_array (inv_perm p) (calc_weight (permute_array p arg.sizes))
  (List.range (num_blocks arg.sizes.prod)).foldl
    (init_shape_helper arg invp_weight) (fun _ => false)

/-- The naive per-ordinal reference loop of the claim: for every source
ordinal, if its source bit is set, set the destination bit at the ordinal
obtained from its coordinate under the inverse-permuted destination
weights. -/
def naive_init_shape (arg : ArgTensor) (p : List Nat) : Nat → Bool :=
  let invp_weight := permute_array (inv_perm p) (calc_weight (permute_array p arg.sizes))
  (List.range arg.sizes.prod).foldl
    (fun shape o => if arg.bit o
      then Function.update shape (calc_ordinal (ord_to_coord arg.sizes o) invp_weight) true
      else shape)
    (fun _ => false)

/-- The state of a `PermuteTiledTensor` consumed by `is_zero`: its density
flag and its shape bitset (a set bit marks a structurally nonzero tile, as
established by `init_shape`). -/
structure PermuteTiledTensor where
  dense : Bool
  shape : Nat → Bool

/-- `PermuteTiledTensor::is_zero(i)` (permute_tiled_tensor.h lines
199–205): `if(is_dense()) return true; return shape_[i];`. -/
def PermuteTiledTensor.is_zero (t : PermuteTiledTensor) (i : Nat) : Bool :=
  if t.dense then true else t.shape i

end expressions

/-!
## Tile algebra (`src/TiledArray/tile.h`)

`Tile<T>` is a shallow wrapper around a tensor; the non-intrusive `subt`
entry points forward to the tensor-level operations, which are not part of
`src/`.  The tensor payload is modelled as a flat list of rationals.
-/

/-- The `Tile<T>` wrapper: `pimpl_` holds the tensor payload. -/
structure Tile (α : Type) where
  tensor : List α

/-- Modelled from the spec: the tensor-level elementwise subtraction
`subt(left, right)` (§4.6) — tensor algebra is not in `src/`. -/
def tensor_subt (l r : List ℚ) : List ℚ := List.zipWith (· - ·) l r

/-- Modelled from the spec: the tensor-level `subt(left, right, factor)` —
`(left - right) * factor`, the elementwise difference scaled in the same
pass (§4.6). -/
def tensor_subt_scale (l r : List ℚ) (factor : ℚ) : List ℚ :=
  (List.zipWith (· - ·) l r).map (· * factor)

/-- `subt(const Tile&, const Tile&)` (tile.h lines 360–364):
`make_tile(subt(left.tensor(), right.tensor()))`.  (The source's trailing
return type names `sub` instead of `subt`; the returned value is the
elementwise difference either way.) -/
def subt (left right : Tile ℚ) : Tile ℚ := ⟨tensor_subt left.tensor right.tensor⟩

/-- The scaling overload `subt(const Tile&, const Tile&, factor)`
(tile.h lines 374–379). -/
def subt_scale (left right : Tile ℚ) (factor : ℚ) : Tile ℚ :=
  ⟨tensor_subt_scale left.tensor right.tensor factor⟩

/-!
## `InputData::make_trange1` (`examples/ccd/input_data.cpp` lines 5–21)

The iterator triple `(begin, first, last)` is modelled by the offset
`d0 = distance(begin, first)` and the list of labels in `[first, last)`.
-/

/-- The boundary-collecting loop of `make_trange1`: `current` is the label
of the run being scanned, `pos` is `distance(begin, first)` for the current
iterator position; a boundary is pushed exactly when the label changes, and
`distance(begin, last)` is pushed after the loop. -/
def make_trange1_loop (current : Nat) (pos : Nat) : List Nat → List Nat
  | [] => [pos]
  | l :: rest =>
      if l ≠ current then pos :: make_trange1_loop l (pos + 1) rest
      else make_trange1_loop current (pos + 1) rest

/-- `InputData::make_trange1(begin, first, last)`: the boundary list starts
with `distance(begin, first) = d0`, `current` is initialized to `*first`
(so the labels must be non-empty), and the loop appends the change
positions and finally `distance(begin, last)`. -/
def make_trange1 (d0 : Nat) : List Nat → List Nat
  | [] => [d0, d0]
  | l :: rest => d0 :: make_trange1_loop l (d0 + 1) rest

namespace conversions

/-!
## Format conversions (`tests/conversions.cpp`)

`to_dense`, `to_sparse`, `to_new_tile_type` and `truncate` live outside
`src/` (only their unit tests are present); they are modelled from the
spec (§4.4, §6, §8).  A sparse array stores, per tile index below `n`,
a stored norm and an optional tile payload (`none` = structurally-zero,
never-materialized tile); `tileNorm` is the per-tile norm estimate used by
the shape, kept abstract since the round trips only need both sides to use
the same one.
-/

/-- A sparse policy array over rational tile data. -/
structure SparseArray where
  n : Nat
  sizes : Nat → Nat
  norms : Nat → ℚ
  tiles : Nat → Option (List ℚ)
  threshold : ℚ

/-- Modelled from the spec (§3): a tile is zero iff its stored norm is at
most the threshold. -/
def SparseArray.is_zero (A : SparseArray) (i : Nat) : Bool :=
  A.norms i ≤ A.threshold

/-- A dense policy array: every tile is materialized. -/
structure DenseArray where
  n : Nat
  sizes : Nat → Nat
  tiles : Nat → List ℚ

/-- The all-zero tile of a given element count. -/
def zeroTile (m : Nat) : List ℚ := List.replicate m 0

/-- Modelled from the spec (§6): `to_dense(sparse_array)` materializes
every tile, zero-filling the structurally-zero ones. -/
def to_dense (A : SparseArray) : DenseArray :=
  ⟨A.n, A.sizes, fun i => match A.tiles i with
    | some t => t
    | none => zeroTile (A.sizes i)⟩

/-- Modelled from the spec (§6, §8): `to_sparse(dense_array, threshold)`
computes each tile's norm, stores it in the shape, and keeps exactly the
tiles whose norm exceeds the threshold. -/
def to_sparse (tileNorm : List ℚ → ℚ) (D : DenseArray) (threshold : ℚ) : SparseArray :=
  ⟨D.n, D.sizes, fun i => tileNorm (D.tiles i),
    fun i => if tileNorm (D.tiles i) ≤ threshold then none else some (D.tiles i),
    threshold⟩

/-- Modelled from the spec (§4.4): the post-state of `truncate()` — every
stored tile's recomputed norm exceeds the threshold and is the stored norm;
a discarded (structurally-zero) tile is physically absent and its stored
norm is zero; the threshold is nonnegative. -/
def Truncated (tileNorm : List ℚ → ℚ) (A : SparseArray) : Prop :=
  0 ≤ A.threshold ∧
  ∀ i, i < A.n →
    match A.tiles i with
    | some t => A.norms i = tileNorm t ∧ A.threshold < tileNorm t ∧ t.length = A.sizes i
    | none => A.norms i = 0

/-- A sparse array with tiles of an arbitrary element type, for
`to_new_tile_type`. -/
structure SparseArrayT (α : Type) where
  n : Nat
  norms : Nat → ℚ
  tiles : Nat → Option (List α)
  threshold : ℚ

/-- Modelled from the spec (§6): `to_new_tile_type(array, f)` rebuilds the
array with every tile's elements transformed by `f`, preserving the shape
(stored norms and zero-tile set) and distribution. -/
def to_new_tile_type {α β : Type} (f : α → β) (A : SparseArrayT α) : SparseArrayT β :=
  ⟨A.n, A.norms, fun i => (A.tiles i).map (List.map f), A.threshold⟩

end conversions

/-!
## `TiledRange1::element_to_tile` (spec §4.1, §7, §8)

`TiledRange1` itself is not in `src/`; modelled from the spec: the boundary
list is scanned for the tile interval containing the element, and an
element outside the covered span fails with `IndexOutOfRange`.
-/

/-- The error kinds of §7 that the modelled operations can raise. -/
inductive TAError where
  | IndexOutOfRange
  deriving DecidableEq

/-- The boundary search: `j` indexes the tile whose half-open interval
`[bounds[j], bounds[j+1])` is tested. -/
def element_to_tile_search (j : Nat) : List Nat → Nat → Except TAError Nat
  | lo :: hi :: rest, e =>
      if lo ≤ e ∧ e < hi then Except.ok j
      else element_to_tile_search (j + 1) (hi :: rest) e
  | _, _ => Except.error TAError.IndexOutOfRange

/-- Modelled from the spec: `TiledRange1::element_to_tile(element_index)`
performs a boundary search over the tile boundary list and fails with
`IndexOutOfRange` if the element lies outside the covered span. -/
def element_to_tile (bounds : List Nat) (e : Nat) : Except TAError Nat :=
  element_to_tile_search 0 bounds e

namespace math

theorem copy_spec {α : Type} (src dst : Nat → α) (db x : Nat) :
    VectorOpUnwind.copy (LOOP_UNWIND - 1) src dst db x =
      if db ≤ x ∧ x < db + LOOP_UNWIND then src (x - db) else dst x := by
  have hL : LOOP_UNWIND = 8 := rfl
  by_cases h : db ≤ x ∧ x < db + LOOP_UNWIND
  · rw [if_pos h]
    rw [hL] at h
    obtain ⟨k, hk, rfl⟩ : ∃ k, k < 8 ∧ x = db + k :=
      ⟨x - db, by omega, by omega⟩
    have hsub : db + k - db = k := by omega
    rw [hsub]
    interval_cases k <;>
      simp [VectorOpUnwind.copy, VectorOpUnwind.offset, LOOP_UNWIND,
        Function.update_apply, Nat.add_left_cancel_iff]
  · rw [if_neg h]
    rw [hL] at h
    simp only [VectorOpUnwind.copy, VectorOpUnwind.offset, LOOP_UNWIND,
      Function.update_apply]
    norm_num
    repeat rw [if_neg (by omega)]

theorem binary_spec {α β γ : Type} (l : Nat → α) (r : Nat → β) (dst : Nat → γ)
    (op : α → β → γ) (x : Nat) :
    VectorOpUnwind.binary (LOOP_UNWIND - 1) l r dst op x =
      if x < LOOP_UNWIND then op (l x) (r x) else dst x := by
  have hL : LOOP_UNWIND = 8 := rfl
  by_cases h : x < LOOP_UNWIND
  · rw [if_pos h]
    rw [hL] at h
    interval_cases x <;>
      simp [VectorOpUnwind.binary, VectorOpUnwind.offset, LOOP_UNWIND,
        Function.update_apply]
  · rw [if_neg h]
    rw [hL] at h
    simp only [VectorOpUnwind.binary, VectorOpUnwind.offset, LOOP_UNWIND,
      Function.update_apply]
    norm_num
    repeat rw [if_neg (by omega)]

theorem binary_inplace_spec {α γ : Type} (arg : Nat → α) (dst : Nat → γ)
    (op : γ → α → γ) (x : Nat) :
    VectorOpUnwind.binary_inplace (LOOP_UNWIND - 1) arg dst op x =
      if x < LOOP_UNWIND then op (dst x) (arg x) else dst x := by
  have hL : LOOP_UNWIND = 8 := rfl
  by_cases h : x < LOOP_UNWIND
  · rw [if_pos h]
    rw [hL] at h
    interval_cases x <;>
      simp [VectorOpUnwind.binary_inplace, VectorOpUnwind.offset, LOOP_UNWIND,
        Function.update_apply]
  · rw [if_neg h]
    rw [hL] at h
    simp only [VectorOpUnwind.binary_inplace, VectorOpUnwind.offset, LOOP_UNWIND,
      Function.update_apply]
    norm_num
    repeat rw [if_neg (by omega)]

theorem copy_spec0 {α : Type} (src dst : Nat → α) (x : Nat) :
    VectorOpUnwind.copy (LOOP_UNWIND - 1) src dst 0 x =
      if x < LOOP_UNWIND then src x else dst x := by
  rw [copy_spec]
  by_cases h : x < LOOP_UNWIND
  · rw [if_pos ⟨Nat.zero_le x, by omega⟩, if_pos h, Nat.sub_zero]
  · rw [if_neg (by omega), if_neg h]

theorem reduce_spec {α β : Type} (arg : Nat → α) (res : β) (op : β → α → β) :
    VectorOpUnwind.reduce (LOOP_UNWIND - 1) arg res op =
      (List.range LOOP_UNWIND).foldl (fun r j => op r (arg j)) res := rfl

theorem reduce2_spec {α β γ : Type} (l : Nat → α) (r : Nat → β) (res : γ)
    (op : γ → α → β → γ) :
    VectorOpUnwind.reduce2 (LOOP_UNWIND - 1) l r res op =
      (List.range LOOP_UNWIND).foldl (fun acc j => op acc (l j) (r j)) res := rfl

theorem binary_blocks {α β γ : Type} (left : Nat → α) (right : Nat → β) (op : α → β → γ)
    (junkl : α) (junkr : β) (junkres : γ) (q : Nat) (result : Nat → γ) (x : Nat) :
    ((List.range q).foldl (fun res b =>
      VectorOpUnwind.copy (LOOP_UNWIND - 1)
        (VectorOpUnwind.binary (LOOP_UNWIND - 1)
          (VectorOpUnwind.copy (LOOP_UNWIND - 1) (fun j => left (b * LOOP_UNWIND + j))
            (fun _ => junkl) 0)
          (VectorOpUnwind.copy (LOOP_UNWIND - 1) (fun j => right (b * LOOP_UNWIND + j))
            (fun _ => junkr) 0)
          (fun _ => junkres) op)
        res (b * LOOP_UNWIND)) result) x =
    if x < q * LOOP_UNWIND then op (left x) (right x) else result x := by
  have hL : LOOP_UNWIND = 8 := rfl
  induction q with
  | zero => simp
  | succ q ih =>
    rw [List.range_succ, List.foldl_append, List.foldl_cons, List.foldl_nil,
      add_one_mul, copy_spec]
    by_cases h1 : q * LOOP_UNWIND ≤ x ∧ x < q * LOOP_UNWIND + LOOP_UNWIND
    · rw [if_pos h1, binary_spec, if_pos (by omega), copy_spec0, copy_spec0,
        if_pos (by omega), if_pos (by omega), if_pos (by omega)]
      have hx : q * LOOP_UNWIND + (x - q * LOOP_UNWIND) = x := by omega
      rw [hx]
    · rw [if_neg h1, ih]
      by_cases h2 : x < q * LOOP_UNWIND
      · rw [if_pos h2, if_pos (by omega)]
      · rw [if_neg h2, if_neg (by omega)]

theorem binary_inplace_blocks {α γ : Type} (arg : Nat → α) (op : γ → α → γ)
    (junka : α) (junkres : γ) (q : Nat) (result : Nat → γ) (x : Nat) :
    ((List.range q).foldl (fun res b =>
      VectorOpUnwind.copy (LOOP_UNWIND - 1)
        (VectorOpUnwind.binary_inplace (LOOP_UNWIND - 1)
          (VectorOpUnwind.copy (LOOP_UNWIND - 1) (fun j => arg (b * LOOP_UNWIND + j))
            (fun _ => junka) 0)
          (VectorOpUnwind.copy (LOOP_UNWIND - 1) (fun j => res (b * LOOP_UNWIND + j))
            (fun _ => junkres) 0)
          op)
        res (b * LOOP_UNWIND)) result) x =
    if x < q * LOOP_UNWIND then op (result x) (arg x) else result x := by
  have hL : LOOP_UNWIND = 8 := rfl
  induction q with
  | zero => simp
  | succ q ih =>
    rw [List.range_succ, List.foldl_append, List.foldl_cons, List.foldl_nil,
      add_one_mul, copy_spec]
    by_cases h1 : q * LOOP_UNWIND ≤ x ∧ x < q * LOOP_UNWIND + LOOP_UNWIND
    · rw [if_pos h1, binary_inplace_spec, if_pos (by omega), copy_spec0, copy_spec0,
        if_pos (by omega), if_pos (by omega), if_pos (by omega)]
      have hx : q * LOOP_UNWIND + (x - q * LOOP_UNWIND) = x := by omega
      rw [hx, ih, if_neg (by omega)]
    · rw [if_neg h1, ih]
      by_cases h2 : x < q * LOOP_UNWIND
      · rw [if_pos h2, if_pos (by omega)]
      · rw [if_neg h2, if_neg (by omega)]

theorem binary_remainder {α β γ : Type} (left : Nat → α) (right : Nat → β)
    (op : α → β → γ) :
    ∀ (m s : Nat) (f : Nat → γ) (x : Nat),
    ((List.range' s m).foldl
        (fun res i => Function.update res i (op (left i) (right i))) f) x =
      if s ≤ x ∧ x < s + m then op (left x) (right x) else f x := by
  intro m
  induction m with
  | zero => intro s f x; rw [if_neg (by omega)]; rfl
  | succ m ih =>
    intro s f x
    rw [List.range'_succ, List.foldl_cons, ih]
    by_cases h1 : s + 1 ≤ x ∧ x < s + 1 + m
    · rw [if_pos h1, if_pos (by omega)]
    · rw [if_neg h1, Function.update_apply]
      by_cases h2 : x = s
      · rw [if_pos h2, if_pos (by omega), h2]
      · rw [if_neg h2, if_neg (by omega)]

theorem binary_inplace_remainder {α γ : Type} (arg : Nat → α) (op : γ → α → γ) :
    ∀ (m s : Nat) (f : Nat → γ) (x : Nat),
    ((List.range' s m).foldl
        (fun res i => Function.update res i (op (res i) (arg i))) f) x =
      if s ≤ x ∧ x < s + m then op (f x) (arg x) else f x := by
  intro m
  induction m with
  | zero => intro s f x; rw [if_neg (by omega)]; rfl
  | succ m ih =>
    intro s f x
    rw [List.range'_succ, List.foldl_cons, ih]
    by_cases h1 : s + 1 ≤ x ∧ x < s + 1 + m
    · rw [if_pos h1, if_pos (by omega), Function.update_apply, if_neg (by omega)]
    · rw [if_neg h1, Function.update_apply]
      by_cases h2 : x = s
      · rw [if_pos h2, if_pos (by omega), h2]
      · rw [if_neg h2, if_neg (by omega)]

theorem reduce_blocks {α β : Type} (arg : Nat → α) (op : β → α → β) (junk : α) :
    ∀ (q : Nat) (res : β),
    (List.range q).foldl (fun res b =>
        VectorOpUnwind.reduce (LOOP_UNWIND - 1)
          (VectorOpUnwind.copy (LOOP_UNWIND - 1) (fun j => arg (b * LOOP_UNWIND + j))
            (fun _ => junk) 0) res op) res =
      (List.range (q * LOOP_UNWIND)).foldl (fun r i => op r (arg i)) res := by
  intro q
  induction q with
  | zero => intro res; rfl
  | succ q ih =>
    intro res
    rw [List.range_succ, List.foldl_append, ih, List.foldl_cons, List.foldl_nil,
      reduce_spec, add_one_mul, List.range_add, List.foldl_append, List.foldl_map]
    exact List.foldl_ext _ _ _ fun a j hj => by
      rw [copy_spec0, if_pos (List.mem_range.mp hj)]

theorem reduce2_blocks {α β γ : Type} (left : Nat → α) (right : Nat → β)
    (op : γ → α → β → γ) (junkl : α) (junkr : β) :
    ∀ (q : Nat) (res : γ),
    (List.range q).foldl (fun res b =>
        VectorOpUnwind.reduce2 (LOOP_UNWIND - 1)
          (VectorOpUnwind.copy (LOOP_UNWIND - 1) (fun j => left (b * LOOP_UNWIND + j))
            (fun _ => junkl) 0)
          (VectorOpUnwind.copy (LOOP_UNWIND - 1) (fun j => right (b * LOOP_UNWIND + j))
            (fun _ => junkr) 0) res op) res =
      (List.range (q * LOOP_UNWIND)).foldl (fun r i => op r (left i) (right i)) res := by
  intro q
  induction q with
  | zero => intro res; rfl
  | succ q ih =>
    intro res
    rw [List.range_succ, List.foldl_append, ih, List.foldl_cons, List.foldl_nil,
      reduce2_spec, add_one_mul, List.range_add, List.foldl_append, List.foldl_map]
    exact List.foldl_ext _ _ _ fun a j hj => by
      rw [copy_spec0, copy_spec0, if_pos (List.mem_range.mp hj),
        if_pos (List.mem_range.mp hj)]

theorem range_split (n : Nat) :
    List.range n =
      List.range (n / LOOP_UNWIND * LOOP_UNWIND) ++
        List.range' (n / LOOP_UNWIND * LOOP_UNWIND)
          (n - n / LOOP_UNWIND * LOOP_UNWIND) := by
  have h : n / LOOP_UNWIND * LOOP_UNWIND ≤ n := Nat.div_mul_le_self n LOOP_UNWIND
  rw [List.range_eq_range', List.range_eq_range']
  have := List.range'_append 0 (n / LOOP_UNWIND * LOOP_UNWIND)
    (n - n / LOOP_UNWIND * LOOP_UNWIND) 1
  rw [Nat.zero_add, Nat.one_mul] at this
  rw [this]
  congr 1
  omega

/-- Claim C9: `binary_vector_op` (both overloads) equals the naive elementwise
loop: every index below `n` receives exactly `op(left[i], right[i])`
(resp. `op(result[i], arg[i])` for the in-place overload), indices at or
above `n` are untouched, and the result is independent of the indeterminate
initial contents of the unrolled temporaries. -/
theorem binary_vector_op_correct {α β γ : Type} (n : Nat) (left : Nat → α)
    (right : Nat → β) (result : Nat → γ) (op : α → β → γ)
    (junkl : α) (junkr : β) (junkres : γ)
    (arg : Nat → α) (result2 : Nat → γ) (op2 : γ → α → γ) (junka : α) (junkres2 : γ)
    (x : Nat) :
    binary_vector_op n left right result op junkl junkr junkres x =
      (if x < n then op (left x) (right x) else result x) ∧
    binary_vector_op_inplace n arg result2 op2 junka junkres2 x =
      (if x < n then op2 (result2 x) (arg x) else result2 x) := by
  have hnx : n / LOOP_UNWIND * LOOP_UNWIND ≤ n := Nat.div_mul_le_self n LOOP_UNWIND
  constructor
  · simp only [binary_vector_op]
    rw [binary_remainder, binary_blocks]
    by_cases h1 : n / LOOP_UNWIND * LOOP_UNWIND ≤ x ∧
        x < n / LOOP_UNWIND * LOOP_UNWIND + (n - n / LOOP_UNWIND * LOOP_UNWIND)
    · rw [if_pos h1, if_pos (by omega)]
    · rw [if_neg h1]
      by_cases h2 : x < n / LOOP_UNWIND * LOOP_UNWIND
      · rw [if_pos h2, if_pos (by omega)]
      · rw [if_neg h2, if_neg (by omega)]
  · simp only [binary_vector_op_inplace]
    rw [binary_inplace_remainder, binary_inplace_blocks]
    by_cases h1 : n / LOOP_UNWIND * LOOP_UNWIND ≤ x ∧
        x < n / LOOP_UNWIND * LOOP_UNWIND + (n - n / LOOP_UNWIND * LOOP_UNWIND)
    · rw [if_pos h1, if_neg (by omega), if_pos (by omega)]
    · rw [if_neg h1]
      by_cases h2 : x < n / LOOP_UNWIND * LOOP_UNWIND
      · rw [if_pos h2, if_pos (by omega)]
      · rw [if_neg h2, if_neg (by omega)]

/-- Claim C7: with the combining operator threaded through the unwinding
recursion (the only reading under which the source's block path typechecks;
see `VectorOpUnwind.reduce`), `reduce_vector_op` applies `op` exactly once
per index `0 ≤ i < n`, in order — it equals the plain left fold — and
likewise the two-argument overload. -/
theorem reduce_vector_op_correct {α β γ δ : Type} (n : Nat) (arg : Nat → α)
    (res : β) (op : β → α → β) (junk : α)
    (left : Nat → γ) (right : Nat → δ) (res2 : β) (op2 : β → γ → δ → β)
    (junkl : γ) (junkr : δ) :
    reduce_vector_op n arg res op junk =
      (List.range n).foldl (fun r i => op r (arg i)) res ∧
    reduce_vector_op2 n left right res2 op2 junkl junkr =
      (List.range n).foldl (fun r i => op2 r (left i) (right i)) res2 := by
  constructor
  · simp only [reduce_vector_op]
    rw [reduce_blocks, range_split n, List.foldl_append]
  · simp only [reduce_vector_op2]
    rw [reduce2_blocks, range_split n, List.foldl_append]

/-- Claim C10: `VecOpUnwindN::scatter` with stride 1 correctly stores
`arg[k]` into `result[k]` for `k = 0` and `k = 7`, but `gather` does not
load the locations `scatter` wrote: its terminating step executes
`*result = arg[offset]` with the result pointer never advanced and the
argument pointer already advanced by 7 strides, so gathering (stride 1,
destination prefilled with 55) from the scattered block `0,…,7` (padding
100 beyond it) overwrites `result[0]` with `buf[14] = 100` and never writes
`result[7]`, instead of recovering `arg[0] = 0` and `arg[7] = 7` as the
claim's round trip requires. -/
theorem scatter_gather_roundtrip_bug :
    (VectorOpUnwind.scatter (LOOP_UNWIND - 1) (fun j => (j : Int))
      (fun _ => 100) 0 1) 0 = 0 ∧
    (VectorOpUnwind.scatter (LOOP_UNWIND - 1) (fun j => (j : Int))
      (fun _ => 100) 0 1) 7 = 7 ∧
    (VectorOpUnwind.gather (LOOP_UNWIND - 1)
      (VectorOpUnwind.scatter (LOOP_UNWIND - 1) (fun j => (j : Int))
        (fun _ => 100) 0 1) 0 (fun _ => 55) 1) 0 = 100 ∧
    (VectorOpUnwind.gather (LOOP_UNWIND - 1)
      (VectorOpUnwind.scatter (LOOP_UNWIND - 1) (fun j => (j : Int))
        (fun _ => 100) 0 1) 0 (fun _ => 55) 1) 7 = 55 := by
  decide

end math

namespace expressions

/-- Claim C1: the claim's own 2×2 example holds (the only nonzero tile `(0,1)`,
ordinal 1, maps to destination tile `(1,0)`, ordinal 2, under the axis
swap, and the block-wise loop agrees with the naive per-ordinal loop there),
but on a 9×8 tile grid whose only nonzero tile has ordinal 64 —
coordinate `(8,0)`, the first bit of storage block 1 — the block-wise loop
restarts the coordinate at the origin for every block and therefore sets
destination bit `calc_ordinal((0,0)) = 0`, while the naive per-ordinal loop
(and the specified shape map) sets destination bit 8, the image of
`(8,0)` under the axis swap. -/
theorem init_shape_block_restart_bug :
    init_shape ⟨[2, 2], fun o => o == 1⟩ [1, 0] 2 = true ∧
    naive_init_shape ⟨[2, 2], fun o => o == 1⟩ [1, 0] 2 = true ∧
    init_shape ⟨[2, 2], fun o => o == 1⟩ [1, 0] 1 = false ∧
    init_shape ⟨[9, 8], fun o => o == 64⟩ [1, 0] 8 = false ∧
    init_shape ⟨[9, 8], fun o => o == 64⟩ [1, 0] 0 = true ∧
    naive_init_shape ⟨[9, 8], fun o => o == 64⟩ [1, 0] 8 = true ∧
    naive_init_shape ⟨[9, 8], fun o => o == 64⟩ [1, 0] 0 = false := by
  decide

/-- Claim C2: `PermuteTiledTensor::is_zero` inverts the documented contract on
both branches: for a dense node it returns `true` for tile 0 (the claim and
the member's own documentation require `false` — a dense tensor has no zero
tiles), and for a sparse node it returns the shape bit directly, so a tile
whose bit is set (structurally nonzero, as established by `init_shape`) is
reported zero and a tile whose bit is unset is reported nonzero. -/
theorem is_zero_inverted :
    PermuteTiledTensor.is_zero ⟨true, fun _ => false⟩ 0 = true ∧
    PermuteTiledTensor.is_zero ⟨false, fun o => o == 3⟩ 3 = true ∧
    PermuteTiledTensor.is_zero ⟨false, fun o => o == 3⟩ 1 = false := by
  decide

end expressions

theorem getD_zipWith_sub :
    ∀ (l r : List ℚ) (i : Nat), i < l.length → i < r.length →
      (List.zipWith (· - ·) l r).getD i 0 = l.getD i 0 - r.getD i 0 := by
  intro l
  induction l with
  | nil => intro r i h1 _; simp at h1
  | cons a l ih =>
    intro r i h1 h2
    cases r with
    | nil => simp at h2
    | cons b r =>
      cases i with
      | zero => simp
      | succ i =>
        simp only [List.zipWith_cons_cons, List.getD_cons_succ]
        exact ih r i (by simpa using h1) (by simpa using h2)

/-- Claim C3: the two-argument `subt(left, right)` returns the elementwise
difference — every element of the result is the corresponding element of
`left` minus the corresponding element of `right` — and it agrees with the
scaling overload before any scaling is applied (factor 1). -/
theorem subt_elementwise (left right : Tile ℚ)
    (h : left.tensor.length = right.tensor.length) (i : Nat)
    (hi : i < left.tensor.length) :
    (subt left right).tensor.getD i 0 =
      left.tensor.getD i 0 - right.tensor.getD i 0 ∧
    subt left right = subt_scale left right 1 := by
  constructor
  · exact getD_zipWith_sub left.tensor right.tensor i hi (h ▸ hi)
  · simp [subt, subt_scale, tensor_subt, tensor_subt_scale]

theorem subt_elementwise_witness :
    (subt ⟨[3, 5]⟩ ⟨[1, 7]⟩).tensor.getD 1 0 =
      (⟨[3, 5]⟩ : Tile ℚ).tensor.getD 1 0 - (⟨[1, 7]⟩ : Tile ℚ).tensor.getD 1 0 ∧
    subt ⟨[3, 5]⟩ ⟨[1, 7]⟩ = subt_scale ⟨[3, 5]⟩ ⟨[1, 7]⟩ 1 :=
  subt_elementwise ⟨[3, 5]⟩ ⟨[1, 7]⟩ rfl 1 (by decide)

/-- Claim C8: on the boundary list `[0,2,5,7]`, `element_to_tile 3`
returns tile index 1 (the tile covering `[2,5)`), while `element_to_tile 7`
and every element index outside the covered span `[0,7)` fail with
`IndexOutOfRange`. -/
theorem element_to_tile_boundaries (e : Nat) (he : 7 ≤ e) :
    element_to_tile [0, 2, 5, 7] 3 = Except.ok 1 ∧
    element_to_tile [0, 2, 5, 7] 7 = Except.error TAError.IndexOutOfRange ∧
    element_to_tile [0, 2, 5, 7] e = Except.error TAError.IndexOutOfRange := by
  refine ⟨rfl, rfl, ?_⟩
  simp only [element_to_tile, element_to_tile_search]
  rw [if_neg (by omega), if_neg (by omega), if_neg (by omega)]

theorem element_to_tile_boundaries_witness :
    element_to_tile [0, 2, 5, 7] 3 = Except.ok 1 ∧
    element_to_tile [0, 2, 5, 7] 7 = Except.error TAError.IndexOutOfRange ∧
    element_to_tile [0, 2, 5, 7] 9 = Except.error TAError.IndexOutOfRange :=
  element_to_tile_boundaries 9 (by decide)

theorem make_trange1_loop_ne_nil (current pos : Nat) (ls : List Nat) :
    make_trange1_loop current pos ls ≠ [] := by
  induction ls generalizing current pos with
  | nil => simp [make_trange1_loop]
  | cons l rest ih =>
    simp only [make_trange1_loop]
    split
    · simp
    · exact ih _ _

theorem make_trange1_loop_getLast (current pos : Nat) (ls : List Nat) :
    (make_trange1_loop current pos ls).getLast? = some (pos + ls.length) := by
  induction ls generalizing current pos with
  | nil => simp [make_trange1_loop]
  | cons l rest ih =>
    simp only [make_trange1_loop]
    split
    · obtain ⟨b, m, hbm⟩ :=
        List.exists_cons_of_ne_nil (make_trange1_loop_ne_nil l (pos + 1) rest)
      rw [hbm, List.getLast?_cons_cons, ← hbm, ih]
      simp
      omega
    · rw [ih]
      simp
      omega

theorem make_trange1_loop_lb (current pos : Nat) (ls : List Nat) :
    ∀ x ∈ make_trange1_loop current pos ls, pos ≤ x := by
  induction ls generalizing current pos with
  | nil =>
    intro x hx
    simp [make_trange1_loop] at hx
    omega
  | cons l rest ih =>
    intro x hx
    simp only [make_trange1_loop] at hx
    split at hx
    · rcases List.mem_cons.mp hx with rfl | hx
      · exact le_refl x
      · have := ih l (pos + 1) x hx
        omega
    · have := ih current (pos + 1) x hx
      omega

theorem make_trange1_loop_chain (current pos : Nat) (ls : List Nat) :
    List.Chain' (· < ·) (make_trange1_loop current pos ls) := by
  induction ls generalizing current pos with
  | nil => simp [make_trange1_loop]
  | cons l rest ih =>
    simp only [make_trange1_loop]
    split
    · refine List.chain'_cons'.mpr ⟨?_, ih _ _⟩
      intro b hb
      have := make_trange1_loop_lb l (pos + 1) rest b (List.mem_of_mem_head? hb)
      omega
    · exact ih _ _

theorem make_trange1_loop_mem (ls : List Nat) : ∀ (current pos x : Nat),
    x ∈ make_trange1_loop current pos ls ↔
      x = pos + ls.length ∨
      ∃ j, j < ls.length ∧ x = pos + j ∧ ls.getD j 0 ≠ (current :: ls).getD j 0 := by
  induction ls with
  | nil =>
    intro current pos x
    simp [make_trange1_loop]
  | cons l rest ih =>
    intro current pos x
    simp only [make_trange1_loop]
    by_cases h : l ≠ current
    · rw [if_pos h, List.mem_cons, ih l (pos + 1) x]
      constructor
      · rintro (rfl | rfl | ⟨j, hj, rfl, hne⟩)
        · exact Or.inr ⟨0, by simp, by omega, by simpa using h⟩
        · exact Or.inl (by simp; omega)
        · exact Or.inr ⟨j + 1, by simp; omega, by omega, by simpa using hne⟩
      · rintro (rfl | ⟨j, hj, rfl, hne⟩)
        · exact Or.inr (Or.inl (by simp; omega))
        · cases j with
          | zero => exact Or.inl (by omega)
          | succ j =>
            exact Or.inr (Or.inr ⟨j, by simp at hj; omega, by omega, by simpa using hne⟩)
    · rw [if_neg h, ih current (pos + 1) x]
      push_neg at h
      subst h
      constructor
      · rintro (rfl | ⟨j, hj, rfl, hne⟩)
        · exact Or.inl (by simp; omega)
        · exact Or.inr ⟨j + 1, by simp; omega, by omega, by simpa using hne⟩
      · rintro (rfl | ⟨j, hj, rfl, hne⟩)
        · exact Or.inl (by simp; omega)
        · cases j with
          | zero => simp at hne
          | succ j =>
            exact Or.inr ⟨j, by simp at hj; omega, by omega, by simpa using hne⟩

/-- Claim C4: for a non-empty label sub-range starting at offset
`d0 = distance(begin, first)`, the boundary list built by `make_trange1`
begins at `d0`, ends at `d0 + length = distance(begin, last)`, is strictly
increasing, and contains an interior boundary exactly at the positions
inside the sub-range where the label differs from the label immediately
before it (the running label value), so each tile covers one maximal run of
equal labels. -/
theorem make_trange1_boundaries (d0 : Nat) (ls : List Nat) (h : ls ≠ []) :
    (make_trange1 d0 ls).head? = some d0 ∧
    (make_trange1 d0 ls).getLast? = some (d0 + ls.length) ∧
    List.Chain' (· < ·) (make_trange1 d0 ls) ∧
    ∀ p, d0 < p → p < d0 + ls.length →
      (p ∈ make_trange1 d0 ls ↔ ls.getD (p - d0) 0 ≠ ls.getD (p - d0 - 1) 0) := by
  obtain ⟨l, rest, rfl⟩ := List.exists_cons_of_ne_nil h
  refine ⟨rfl, ?_, ?_, ?_⟩
  · show (d0 :: make_trange1_loop l (d0 + 1) rest).getLast? = _
    obtain ⟨b, m, hbm⟩ :=
      List.exists_cons_of_ne_nil (make_trange1_loop_ne_nil l (d0 + 1) rest)
    rw [hbm, List.getLast?_cons_cons, ← hbm, make_trange1_loop_getLast]
    simp
    omega
  · show List.Chain' (· < ·) (d0 :: make_trange1_loop l (d0 + 1) rest)
    refine List.chain'_cons'.mpr ⟨?_, make_trange1_loop_chain _ _ _⟩
    intro b hb
    have := make_trange1_loop_lb l (d0 + 1) rest b (List.mem_of_mem_head? hb)
    omega
  · intro p h1 h2
    show p ∈ d0 :: make_trange1_loop l (d0 + 1) rest ↔ _
    rw [List.mem_cons, make_trange1_loop_mem]
    constructor
    · rintro (rfl | rfl | ⟨j, hj, rfl, hne⟩)
      · omega
      · exfalso
        simp only [List.length_cons] at h2
        omega
      · have e1 : d0 + 1 + j - d0 = j + 1 := by omega
        rw [e1, Nat.add_sub_cancel]
        simpa using hne
    · intro hne
      right; right
      refine ⟨p - d0 - 1, by simp only [List.length_cons] at h2 ⊢; omega, by omega, ?_⟩
      have e1 : p - d0 = p - d0 - 1 + 1 := by omega
      rw [e1] at hne
      simpa using hne

theorem make_trange1_boundaries_witness :
    (make_trange1 2 [5, 5, 7]).head? = some 2 ∧
    (make_trange1 2 [5, 5, 7]).getLast? = some (2 + ([5, 5, 7] : List Nat).length) ∧
    List.Chain' (· < ·) (make_trange1 2 [5, 5, 7]) ∧
    ∀ p, 2 < p → p < 2 + ([5, 5, 7] : List Nat).length →
      (p ∈ make_trange1 2 [5, 5, 7] ↔
        ([5, 5, 7] : List Nat).getD (p - 2) 0 ≠ ([5, 5, 7] : List Nat).getD (p - 2 - 1) 0) :=
  make_trange1_boundaries 2 [5, 5, 7] (by decide)

namespace conversions

/-- Claim C5: for a truncated sparse array `A` (all stored norms match the
recomputed tile norms, present tiles exceed the threshold, absent tiles
have stored norm 0, threshold nonnegative, and the zero tile has norm 0),
the round trip `to_sparse (to_dense A) A.threshold` reproduces `A`'s shape
— stored norms, hence the zero/nonzero classification — and reproduces
every tile exactly: present tiles elementwise equal, absent tiles absent. -/
theorem to_sparse_to_dense_roundtrip (tileNorm : List ℚ → ℚ) (A : SparseArray)
    (hA : Truncated tileNorm A)
    (h0 : ∀ i, i < A.n → tileNorm (zeroTile (A.sizes i)) = 0)
    (i : Nat) (hi : i < A.n) :
    (to_sparse tileNorm (to_dense A) A.threshold).norms i = A.norms i ∧
    (to_sparse tileNorm (to_dense A) A.threshold).tiles i = A.tiles i ∧
    (to_sparse tileNorm (to_dense A) A.threshold).is_zero i = A.is_zero i := by
  obtain ⟨hth, htiles⟩ := hA
  have hAi := htiles i hi
  cases ht : A.tiles i with
  | some t =>
    rw [ht] at hAi
    obtain ⟨hnorm, hgt, _⟩ := hAi
    refine ⟨?_, ?_, ?_⟩
    · simp [to_sparse, to_dense, ht, hnorm]
    · simp only [to_sparse, to_dense, ht]
      rw [if_neg (not_le.mpr hgt)]
    · simp [SparseArray.is_zero, to_sparse, to_dense, ht, hnorm]
  | none =>
    rw [ht] at hAi
    have hz := h0 i hi
    refine ⟨?_, ?_, ?_⟩
    · simp [to_sparse, to_dense, ht, hz, hAi]
    · simp only [to_sparse, to_dense, ht]
      rw [if_pos (by rw [hz]; exact hth)]
    · simp [SparseArray.is_zero, to_sparse, to_dense, ht, hz, hAi]

theorem to_sparse_to_dense_roundtrip_witness :
    (to_sparse (fun t => t.sum)
        (to_dense ⟨2, fun _ => 2, fun i => if i = 0 then 5 else 0,
          fun i => if i = 0 then some [2, 3] else none, 0⟩) 0).norms 0 =
      (⟨2, fun _ => 2, fun i => if i = 0 then 5 else 0,
        fun i => if i = 0 then some [2, 3] else none, 0⟩ : SparseArray).norms 0 ∧
    (to_sparse (fun t => t.sum)
        (to_dense ⟨2, fun _ => 2, fun i => if i = 0 then 5 else 0,
          fun i => if i = 0 then some [2, 3] else none, 0⟩) 0).tiles 0 =
      (⟨2, fun _ => 2, fun i => if i = 0 then 5 else 0,
        fun i => if i = 0 then some [2, 3] else none, 0⟩ : SparseArray).tiles 0 ∧
    (to_sparse (fun t => t.sum)
        (to_dense ⟨2, fun _ => 2, fun i => if i = 0 then 5 else 0,
          fun i => if i = 0 then some [2, 3] else none, 0⟩) 0).is_zero 0 =
      (⟨2, fun _ => 2, fun i => if i = 0 then 5 else 0,
        fun i => if i = 0 then some [2, 3] else none, 0⟩ : SparseArray).is_zero 0 :=
  to_sparse_to_dense_roundtrip (fun t => t.sum)
    ⟨2, fun _ => 2, fun i => if i = 0 then 5 else 0,
      fun i => if i = 0 then some [2, 3] else none, 0⟩
    (by
      refine ⟨le_refl 0, ?_⟩
      intro i hi
      interval_cases i
      · exact ⟨by norm_num, by norm_num, by norm_num⟩
      · norm_num)
    (by
      intro i hi
      simp [zeroTile])
    0 (by norm_num)

/-- Claim C6: `to_new_tile_type` applied with an elementwise conversion `f`
and then with a conversion `g` that inverts `f` on every element actually
stored in `A` (the "exactly representable" hypothesis of the int→float→int
round trip) reproduces `A` exactly: identical tile payloads — hence the
same zero-tile set — and identical stored norms. -/
theorem to_new_tile_type_roundtrip {α β : Type} (f : α → β) (g : β → α)
    (A : SparseArrayT α)
    (h : ∀ i, i < A.n → ∀ t, A.tiles i = some t → ∀ x ∈ t, g (f x) = x)
    (i : Nat) (hi : i < A.n) :
    (to_new_tile_type g (to_new_tile_type f A)).tiles i = A.tiles i ∧
    (to_new_tile_type g (to_new_tile_type f A)).norms i = A.norms i ∧
    (to_new_tile_type g (to_new_tile_type f A)).n = A.n := by
  refine ⟨?_, rfl, rfl⟩
  cases ht : A.tiles i with
  | none => simp [to_new_tile_type, ht]
  | some t =>
    simp only [to_new_tile_type, ht]
    show some (List.map g (List.map f t)) = some t
    rw [List.map_map]
    exact congrArg some
      ((List.map_congr_left fun x hx => h i hi t ht x hx).trans (List.map_id t))

theorem to_new_tile_type_roundtrip_witness :
    (to_new_tile_type (fun q : ℚ => q.num)
        (to_new_tile_type (fun x : Int => (x : ℚ))
          ⟨1, fun _ => 1, fun i => if i = 0 then some [3, -5] else none, 0⟩)).tiles 0 =
      (⟨1, fun _ => 1, fun i => if i = 0 then some [3, -5] else none, 0⟩ :
        SparseArrayT Int).tiles 0 ∧
    (to_new_tile_type (fun q : ℚ => q.num)
        (to_new_tile_type (fun x : Int => (x : ℚ))
          ⟨1, fun _ => 1, fun i => if i = 0 then some [3, -5] else none, 0⟩)).norms 0 =
      (⟨1, fun _ => 1, fun i => if i = 0 then some [3, -5] else none, 0⟩ :
        SparseArrayT Int).norms 0 ∧
    (to_new_tile_type (fun q : ℚ => q.num)
        (to_new_tile_type (fun x : Int => (x : ℚ))
          ⟨1, fun _ => 1, fun i => if i = 0 then some [3, -5] else none, 0⟩)).n =
      (⟨1, fun _ => 1, fun i => if i = 0 then some [3, -5] else none, 0⟩ :
        SparseArrayT Int).n :=
  to_new_tile_type_roundtrip (fun x : Int => (x : ℚ)) (fun q : ℚ => q.num)
    ⟨1, fun _ => 1, fun i => if i = 0 then some [3, -5] else none, 0⟩
    (by intro i hi t ht x hx
        interval_cases i
        norm_num at ht
        subst ht
        simp only [List.mem_cons, List.not_mem_nil, or_false] at hx
        rcases hx with rfl | rfl <;> simp [Rat.num_intCast])
    0 (by decide)

end conversions

end TiledArray

section VectorOpUnwindTests

open TiledArray.math

example : VectorOpUnwind.offset 0 = 7 := rfl

example : VectorOpUnwind.offset 7 = 0 := rfl

example :
    (VectorOpUnwind.copy 7 (fun j => (j : Int) + 10) (fun _ => (0 : Int)) 3) 5 = 12 := by
  decide

example :
    (VectorOpUnwind.scatter 7 (fun j => (j : Int)) (fun _ => (100 : Int)) 0 2) 6 = 3 := by
  decide

end VectorOpUnwindTests
